import Mathlib

/-!
Verification development for the finger-tracking repository.

The repository contains three JavaScript variants of the same application:
a TF.js-based script (part_000, with median-plus-exponential-blend smoothing,
a mirror toggle and a 21-landmark guard), a MediaPipe script (part_001, with
mode smoothing) and a backup MediaPipe script (script_bkp.js, with a
first-encountered tie-break in its mode function).

Modelling conventions:
- JavaScript numbers are modelled by real numbers for the geometry and by
  rationals / integers for the smoothing arithmetic.  All quantities fed to
  Math.round here are sums of integer multiples of 1/2 and 1/5, whose
  distance to the nearest half-integer tie is far larger than double
  rounding error, so exact rational arithmetic decides every rounding the
  same way IEEE doubles do.
- Math.round is floor (x + 1/2) (JavaScript rounds halves toward plus
  infinity; all rounded values in this program are nonnegative).
- JavaScript object keys: for objects whose keys are small integers,
  Object.keys returns the keys in ascending numeric order; for string keys
  it returns them in first-insertion order.  objKeys models the insertion
  order, numKeys the ascending numeric order.
- Array.prototype.sort with comparator (a, b) => a - b sorts ascending,
  modelled by insertionSort with the ≤ relation (equal for Nat lists).
-/

namespace FingerTrack

/-- A 3D landmark point.  The sources read (p.z || 0); the orchestrator in
part_000 already materialises z as a number, so z is a plain field here. -/
structure Pt where
  x : ℝ
  y : ℝ
  z : ℝ

/-- Default point used for List.getD in statements. -/
def pt0 : Pt := ⟨0, 0, 0⟩

/-- Math.hypot on three arguments. -/
noncomputable def hypot3 (x y z : ℝ) : ℝ :=
  Real.sqrt (x * x + y * y + z * z)

open Classical in
/-- angleBetween from part_000 (identical to angleBetweenPoints in part_001
and script_bkp.js): the angle in degrees at vertex b between rays b→a and
b→c, computed from the clamped cosine; 0 when either vector is degenerate. -/
noncomputable def angleBetween (a b c : Pt) : ℝ :=
  let dot := (a.x - b.x) * (c.x - b.x) + (a.y - b.y) * (c.y - b.y) +
      (a.z - b.z) * (c.z - b.z)
  let mag1 := hypot3 (a.x - b.x) (a.y - b.y) (a.z - b.z)
  let mag2 := hypot3 (c.x - b.x) (c.y - b.y) (c.z - b.z)
  if mag1 = 0 ∨ mag2 = 0 then 0
  else Real.arccos (max (-1) (min 1 (dot / (mag1 * mag2)))) * (180 / Real.pi)

/-- The Left/Right swap applied to handedness labels (part_000 mirror branch;
identical to the usingSelfieCam flip of part_001 and script_bkp.js). -/
def swapLabel (l : String) : String :=
  if l = "Left" then "Right" else if l = "Right" then "Left" else l

/-- Label emitted by part_000: the raw detector label, swapped when the
mirror toggle is on. -/
def mirrorLabel (mirror : Bool) (l : String) : String :=
  if mirror then swapLabel l else l

/-- Result of analysing one hand: the per-finger booleans and the count. -/
structure FingerAnalysis where
  extended : List Bool
  count : ℕ

open Classical in
/-- One finger test: look up the three landmark indices and compare the
joint angle with the threshold.  A missing landmark raises in JavaScript
and the catch block leaves the finger not extended; here a failed lookup
returns false directly. -/
noncomputable def jointExtended (l : List Pt) (i j k : ℕ) (thr : ℝ) : Bool :=
  match l.get? i, l.get? j, l.get? k with
  | some a, some b, some c => if thr < angleBetween a b c then true else false
  | _, _, _ => false

/-- analyzeLandmarks from part_000: thumb via the (2,3,4) triple against
150 degrees, the other four fingers via their MCP-PIP-TIP triples against
160 degrees; count is the sum of the booleans. -/
noncomputable def analyzeLandmarks (l : List Pt) : FingerAnalysis :=
  let extended := [jointExtended l 2 3 4 150,
                   jointExtended l 5 6 8 160,
                   jointExtended l 9 10 12 160,
                   jointExtended l 13 14 16 160,
                   jointExtended l 17 18 20 160]
  ⟨extended, extended.foldl (fun s v => s + if v then 1 else 0) 0⟩

/-- analyzeHand from part_001 and script_bkp.js is line-for-line the same
computation as analyzeLandmarks. -/
noncomputable def analyzeHand : List Pt → FingerAnalysis := analyzeLandmarks

/-- The push-then-shift idiom shared by every history window in the three
variants: append the new value, and drop the oldest entry when the window
has outgrown the capacity. -/
def pushWindow {α : Type} (cap : ℕ) (w : List α) (x : α) : List α :=
  let w1 := w ++ [x]
  if cap < w1.length then w1.drop 1 else w1

/-- Math.round for the values this program rounds (all nonnegative):
floor (q + 1/2), halves rounded up. -/
def jsRound (q : ℚ) : ℤ := ⌊q + 1 / 2⌋

/-- The median computed by pushHistory in part_000: middle element of the
ascending-sorted window when the length is odd, Math.round of the average
of the two middle elements when it is even.  (The window is never empty at
the call site.) -/
def codeMedian (l : List ℕ) : ℚ :=
  let sorted := List.insertionSort (· ≤ ·) l
  let mid := sorted.length / 2
  if sorted.length % 2 = 1 then (sorted.getD mid 0 : ℚ)
  else (jsRound (((sorted.getD (mid - 1) 0 : ℚ) + (sorted.getD mid 0 : ℚ)) / 2) : ℚ)

/-- Modelled from the spec: the median of the count window as the claim
states it — the middle value when the window length is odd, the unrounded
average of the two middle values of the sorted window when it is even. -/
def specMedian (l : List ℕ) : ℚ :=
  let sorted := List.insertionSort (· ≤ ·) l
  let mid := sorted.length / 2
  if sorted.length % 2 = 1 then (sorted.getD mid 0 : ℚ)
  else ((sorted.getD (mid - 1) 0 : ℚ) + (sorted.getD mid 0 : ℚ)) / 2

/-- Keys of a JavaScript frequency object in first-insertion order: the
order in which Object.keys lists non-numeric (string) keys. -/
def objKeys {α : Type} [DecidableEq α] (l : List α) : List α :=
  l.foldl (fun ks v => if v ∈ ks then ks else ks ++ [v]) []

/-- Keys of a frequency object over small integers, as Object.keys lists
them: ascending numeric order. -/
def numKeys (l : List ℕ) : List ℕ :=
  List.insertionSort (· ≤ ·) (objKeys l)

/-- mode from part_001 applied to the count window (Number of the winning
key folded back in): reduce keeps the accumulator only when its frequency
is strictly larger, so on ties the later key — the larger value, given the
ascending key order — wins.  JavaScript throws on an empty array; the empty
case is unreachable at the call sites and mapped to 0 here. -/
def modeV2 (l : List ℕ) : ℕ :=
  match numKeys l with
  | [] => 0
  | k :: ks => ks.foldl (fun a b => if l.count a > l.count b then a else b) k

/-- mode from script_bkp.js applied to the count window: best is replaced
only when a key has strictly larger frequency, so on ties the
first-encountered key wins. -/
def modeBkp (l : List ℕ) : ℕ :=
  match numKeys l with
  | [] => 0
  | k :: ks => ks.foldl (fun best kk => if l.count kk > l.count best then kk else best) k

/-- The label mode of part_000 (smoothHand reduce) and of part_001 applied
to the handedness window: string keys in first-insertion order, later key
wins on ties. -/
def modeStr (l : List String) : String :=
  match objKeys l with
  | [] => ""
  | k :: ks => ks.foldl (fun a b => if l.count a > l.count b then a else b) k

/-- mode from script_bkp.js applied to the handedness window: string keys
in first-insertion order, first key wins on ties. -/
def modeBkpStr (l : List String) : String :=
  match objKeys l with
  | [] => ""
  | k :: ks => ks.foldl (fun best kk => if l.count kk > l.count best then kk else best) k

/-- The mutable smoothing state of part_000. -/
structure SmoothState where
  smoothCount : ℤ
  countHistory : List ℕ
  handHistory : List String
  smoothHand : String

/-- The initial state of part_000 (smoothCount = 0, smoothHand is the em
dash placeholder). -/
def initState : SmoothState := ⟨0, [], [], "—"⟩

/-- pushHistory from part_000: append to both capacity-8 windows, take the
(even-case rounded) median of the count window, blend it into smoothCount
with weights 0.6/0.4, and recompute smoothHand as the label mode. -/
def pushHistory (st : SmoothState) (count : ℕ) (handLabel : String) : SmoothState :=
  let ch := pushWindow 8 st.countHistory count
  let hh := pushWindow 8 st.handHistory handLabel
  let median := codeMedian ch
  { smoothCount := jsRound ((st.smoothCount : ℚ) * (6 / 10) + median * (4 / 10)),
    countHistory := ch,
    handHistory := hh,
    smoothHand := modeStr hh }

/-- A sequence of pushHistory calls, one per observed frame. -/
def observeSeq (st : SmoothState) (obs : List (ℕ × String)) : SmoothState :=
  obs.foldl (fun s p => pushHistory s p.1 p.2) st

/-- One detected hand as part_000 consumes it: the keypoint list chosen by
the orchestrator and the optional handedness label of the first handedness
entry. -/
structure Hand where
  keypoints : List Pt
  handedness : Option String

/-- The toggles of part_000 plus the canvas size used by the pixel-space
normalisation. -/
structure Config where
  showSkeleton : Bool
  multiHand : Bool
  mirror : Bool
  width : ℝ
  height : ℝ

/-- The raw label part_000 extracts from a hand (Unknown when absent). -/
def rawLabel (h : Hand) : String := h.handedness.getD "Unknown"

open Classical in
/-- The pixel-space heuristic of part_000: when the first coordinate
exceeds 1.5 the landmarks are taken to be in pixel space and divided by the
canvas size. -/
noncomputable def normalizePts (cfg : Config) (lm : List Pt) : List Pt :=
  if 1.5 < (lm.getD 0 pt0).x then
    lm.map (fun p => ⟨p.x / cfg.width, p.y / cfg.height, p.z⟩)
  else lm

/-- The landmark gate of part_000: a hand yields landmarks only when it has
exactly 21 keypoints (the map and the normalisation preserve the length, so
the second length check in the source is equivalent to the first). -/
noncomputable def normLm (cfg : Config) (h : Hand) : Option (List Pt) :=
  if h.keypoints.length = 21 then some (normalizePts cfg h.keypoints) else none

/-- Hand selection of part_000: slice(0, multiHand ? 2 : 1). -/
def shownHands (multiHand : Bool) (hands : List Hand) : List Hand :=
  hands.take (if multiHand then 2 else 1)

/-- The per-hand loop of part_000: a hand without exactly 21 landmarks is
skipped (continue); otherwise it is classified, its label mirrored, and —
only at loop index 0 — pushed into the smoother.  Returns the final state
and the processed hands with their loop indices. -/
noncomputable def handLoop (cfg : Config) :
    SmoothState → ℕ → List Hand → SmoothState × List (ℕ × FingerAnalysis × String)
  | st, _, [] => (st, [])
  | st, i, h :: rest =>
    match normLm cfg h with
    | none => handLoop cfg st (i + 1) rest
    | some lm =>
      let analysis := analyzeLandmarks lm
      let label := mirrorLabel cfg.mirror (rawLabel h)
      let st1 := if i = 0 then pushHistory st analysis.count label else st
      let next := handLoop cfg st1 (i + 1) rest
      (next.1, (i, analysis, label) :: next.2)

/-- processFrame of part_000, restricted to its state and display effects:
with zero hands both windows are cleared and the display resets to the
0 and em dash sentinels; otherwise the first min(d, maxHands) hands are
processed by handLoop. -/
noncomputable def processFrame (cfg : Config) (st : SmoothState) (hands : List Hand) :
    SmoothState × List (ℕ × FingerAnalysis × String) × String :=
  if 0 < hands.length then
    let res := handLoop cfg st 0 (shownHands cfg.multiHand hands)
    (res.1, res.2, "Detected " ++ toString hands.length ++ " hand(s)")
  else (⟨0, [], [], "—"⟩, [], "No hands detected")

/-- The mutable state of part_001. -/
structure V2State where
  countHistory : List ℕ
  handedHistory : List String

/-- Hand-count policy of part_001: with the multi toggle on it processes
every detected hand, otherwise Math.min(1, d). -/
def handsToShowV2 (multi : Bool) (d : ℕ) : ℕ :=
  if multi then d else min 1 d

/-- Loop body of part_001: only loop index 0 touches the two capacity-8
windows; the label is always selfie-flipped.  There is no landmark-count
gate: the hand is classified whatever its landmark list is. -/
noncomputable def v2ProcessHand (s : V2State) (i : ℕ) (lm : List Pt) (label : String) :
    V2State :=
  if i = 0 then
    ⟨pushWindow 8 s.countHistory (analyzeHand lm).count,
     pushWindow 8 s.handedHistory (swapLabel label)⟩
  else s

/-- onResults of part_001, restricted to state and display effects: with at
least one hand it runs the loop over the first handsToShowV2 hands and
displays the two modes of the updated windows; with zero hands it clears
both windows and resets the display. -/
noncomputable def onResultsV2 (multi : Bool) (st : V2State)
    (mhl : List (List Pt)) (mhh : List String) : V2State × ℕ × String × String :=
  if 0 < mhl.length then
    let n := handsToShowV2 multi mhl.length
    let st1 := (List.range n).foldl
      (fun s i => v2ProcessHand s i (mhl.getD i []) (mhh.getD i "Unknown")) st
    (st1, modeV2 st1.countHistory, modeStr st1.handedHistory, "Hand detected")
  else (⟨[], []⟩, 0, "—", "No hands detected")

/-- A fixed configuration used by witnesses. -/
def cfg0 : Config := ⟨true, false, false, 1, 1⟩

/-- The classification contract of claim C3 for one hand: each finger flag
is the threshold comparison at its landmark triple, and the count is the
number of raised flags, at most 5. -/
def classifyClaim (l : List Pt) : Prop :=
  ((analyzeLandmarks l).extended.getD 0 false = true ↔
      150 < angleBetween (l.getD 2 pt0) (l.getD 3 pt0) (l.getD 4 pt0)) ∧
  ((analyzeLandmarks l).extended.getD 1 false = true ↔
      160 < angleBetween (l.getD 5 pt0) (l.getD 6 pt0) (l.getD 8 pt0)) ∧
  ((analyzeLandmarks l).extended.getD 2 false = true ↔
      160 < angleBetween (l.getD 9 pt0) (l.getD 10 pt0) (l.getD 12 pt0)) ∧
  ((analyzeLandmarks l).extended.getD 3 false = true ↔
      160 < angleBetween (l.getD 13 pt0) (l.getD 14 pt0) (l.getD 16 pt0)) ∧
  ((analyzeLandmarks l).extended.getD 4 false = true ↔
      160 < angleBetween (l.getD 17 pt0) (l.getD 18 pt0) (l.getD 20 pt0)) ∧
  (analyzeLandmarks l).count = (analyzeLandmarks l).extended.count true ∧
  (analyzeLandmarks l).count ≤ 5

/-- Evaluation rule for jsRound. -/
theorem jsRound_eq (q : ℚ) (n : ℤ) (h1 : (n : ℚ) ≤ q + 1 / 2) (h2 : q + 1 / 2 < n + 1) :
    jsRound q = n := by
  unfold jsRound
  rw [Int.floor_eq_iff]
  exact ⟨h1, h2⟩

/-- jsRound is the identity on natural numbers. -/
theorem jsRound_natCast (n : ℕ) : jsRound (n : ℚ) = n := by
  refine jsRound_eq _ _ ?_ ?_ <;> push_cast <;> norm_num

/-- The median part_000 computes is exactly the rounded spec median: equal
to it outright for odd windows, and Math.round of it for even windows. -/
theorem codeMedian_eq (l : List ℕ) : codeMedian l = (jsRound (specMedian l) : ℚ) := by
  simp only [codeMedian, specMedian]
  split_ifs with h
  · rw [jsRound_natCast]; push_cast; ring
  · rfl

/-- Folding the push-then-shift window update over any observation list
starting from the empty window leaves exactly the last cap observations. -/
theorem pushWindow_foldl {α : Type} (cap : ℕ) (obs : List α) :
    obs.foldl (pushWindow cap) [] = obs.drop (obs.length - cap) := by
  induction obs using List.reverseRecOn with
  | nil => simp
  | append_singleton l x ih =>
    rw [List.foldl_append, ih, List.foldl_cons, List.foldl_nil]
    unfold pushWindow
    simp only [List.length_append, List.length_singleton, List.length_drop]
    rcases le_or_lt cap l.length with hc | hc
    · have hlen : l.length - (l.length - cap) = cap := Nat.sub_sub_self hc
      rw [hlen, if_pos (Nat.lt_succ_self cap)]
      rcases Nat.eq_zero_or_pos cap with h0 | h0
      · subst h0
        rw [Nat.sub_zero, List.drop_length, List.nil_append]
        have h1 : l.length + 1 - 0 = (l ++ [x]).length := by simp
        rw [h1, List.drop_length]
        rfl
      · have h1 : (1 : ℕ) ≤ (List.drop (l.length - cap) l).length := by
          rw [List.length_drop, hlen]; exact h0
        rw [List.drop_append_of_le_length h1, List.drop_drop]
        have h2 : l.length + 1 - cap ≤ l.length := by omega
        rw [List.drop_append_of_le_length h2]
        have h3 : l.length - cap + 1 = l.length + 1 - cap := by omega
        rw [h3]
    · have h0 : l.length - cap = 0 := by omega
      rw [h0, List.drop_zero, if_neg (by omega)]
      have h1 : l.length + 1 - cap = 0 := by omega
      rw [h1, List.drop_zero]

/-- The count window of the part_000 smoother is the pushWindow fold of the
observed counts. -/
theorem observeSeq_countHistory (obs : List (ℕ × String)) :
    ∀ st : SmoothState, (observeSeq st obs).countHistory
      = (obs.map Prod.fst).foldl (pushWindow 8) st.countHistory := by
  induction obs with
  | nil => intro st; rfl
  | cons p rest ih =>
    intro st
    have h1 : observeSeq st (p :: rest) = observeSeq (pushHistory st p.1 p.2) rest := rfl
    rw [h1, ih]
    rfl

/-- The handedness window of the part_000 smoother is the pushWindow fold
of the observed labels. -/
theorem observeSeq_handHistory (obs : List (ℕ × String)) :
    ∀ st : SmoothState, (observeSeq st obs).handHistory
      = (obs.map Prod.snd).foldl (pushWindow 8) st.handHistory := by
  induction obs with
  | nil => intro st; rfl
  | cons p rest ih =>
    intro st
    have h1 : observeSeq st (p :: rest) = observeSeq (pushHistory st p.1 p.2) rest := rfl
    rw [h1, ih]
    rfl

/-- C1 counterexample: from displayed count 0 and window [3], observing 4
makes the window [3, 4]; the code displays 2, while the claimed formula
round(0.6 x 0 + 0.4 x median) with the unrounded median 7/2 gives 1. -/
theorem C1_counterexample :
    (pushHistory ⟨0, [3], [], "—"⟩ 4 "Left").smoothCount = 2 ∧
    specMedian (pushWindow 8 [3] 4) = 7 / 2 ∧
    jsRound ((0 : ℚ) * (6 / 10) + (7 / 2) * (4 / 10)) = 1 ∧
    (2 : ℤ) ≠ 1 := by
  have hpw : pushWindow 8 [3] 4 = [3, 4] := rfl
  have hsort : List.insertionSort (· ≤ ·) [3, 4] = [3, 4] := rfl
  have hspec : specMedian [3, 4] = 7 / 2 := by
    simp only [specMedian]
    rw [hsort]
    norm_num [List.getD_cons_zero, List.getD_cons_succ]
  have hmed : codeMedian [3, 4] = 4 := by
    rw [codeMedian_eq, hspec, jsRound_eq (7 / 2 : ℚ) 4 (by norm_num) (by norm_num)]
    norm_num
  refine ⟨?_, ?_, ?_, by decide⟩
  · show jsRound (((0 : ℤ) : ℚ) * (6 / 10) + codeMedian (pushWindow 8 [3] 4) * (4 / 10)) = 2
    rw [hpw, hmed]
    refine jsRound_eq _ _ ?_ ?_ <;> norm_num
  · rw [hpw, hspec]
  · refine jsRound_eq _ _ ?_ ?_ <;> norm_num

/-- C1 amended: after each observation the displayed count equals
round(0.6 x previous_displayed + 0.4 x round(median)), where median is the
unrounded spec median of the new window and round is half-up: the code
rounds the even-window median to an integer before blending. -/
theorem C1_blend_rounded_median :
    ∀ (st : SmoothState) (c : ℕ) (lab : String),
      (pushHistory st c lab).smoothCount =
        jsRound ((st.smoothCount : ℚ) * (6 / 10) +
          (jsRound (specMedian (pushWindow 8 st.countHistory c)) : ℚ) * (4 / 10)) := by
  intro st c lab
  show jsRound ((st.smoothCount : ℚ) * (6 / 10) +
      codeMedian (pushWindow 8 st.countHistory c) * (4 / 10)) = _
  rw [codeMedian_eq]

/-- C2: starting from the empty smoother state, after any observation
sequence each window holds exactly the most recent (at most 8) raw values
in order, and never more than the capacity 8; the first conjunct states the
eviction law for every capacity. -/
theorem C2_window_capacity :
    (∀ (α : Type) (cap : ℕ) (obs : List α),
        obs.foldl (pushWindow cap) [] = obs.drop (obs.length - cap)) ∧
    ∀ obs : List (ℕ × String),
      (observeSeq initState obs).countHistory
          = (obs.map Prod.fst).drop (obs.length - 8) ∧
      (observeSeq initState obs).handHistory
          = (obs.map Prod.snd).drop (obs.length - 8) ∧
      (observeSeq initState obs).countHistory.length ≤ 8 ∧
      (observeSeq initState obs).handHistory.length ≤ 8 := by
  refine ⟨fun α cap obs => pushWindow_foldl cap obs, fun obs => ?_⟩
  have hc : (observeSeq initState obs).countHistory
      = (obs.map Prod.fst).drop (obs.length - 8) := by
    rw [observeSeq_countHistory]
    show (obs.map Prod.fst).foldl (pushWindow 8) [] = _
    rw [pushWindow_foldl, List.length_map]
  have hh : (observeSeq initState obs).handHistory
      = (obs.map Prod.snd).drop (obs.length - 8) := by
    rw [observeSeq_handHistory]
    show (obs.map Prod.snd).foldl (pushWindow 8) [] = _
    rw [pushWindow_foldl, List.length_map]
  refine ⟨hc, hh, ?_, ?_⟩
  · rw [hc, List.length_drop, List.length_map]; omega
  · rw [hh, List.length_drop, List.length_map]; omega

/-- C7: for every three 3D points the angle is within [0, 180] degrees, and
a zero-magnitude vector on either side makes the function return exactly 0. -/
theorem C7_angle_range_and_degenerate :
    ∀ a b c : Pt,
      (0 ≤ angleBetween a b c ∧ angleBetween a b c ≤ 180) ∧
      (hypot3 (a.x - b.x) (a.y - b.y) (a.z - b.z) = 0 ∨
          hypot3 (c.x - b.x) (c.y - b.y) (c.z - b.z) = 0 →
        angleBetween a b c = 0) := by
  intro a b c
  simp only [angleBetween]
  split_ifs with h
  · refine ⟨⟨le_refl 0, by norm_num⟩, fun _ => rfl⟩
  · refine ⟨⟨?_, ?_⟩, fun hh => absurd hh h⟩
    · exact mul_nonneg (Real.arccos_nonneg _) (by positivity)
    · calc
        Real.arccos (max (-1) (min 1 _)) * (180 / Real.pi)
            ≤ Real.pi * (180 / Real.pi) :=
          mul_le_mul_of_nonneg_right (Real.arccos_le_pi _) (by positivity)
        _ = 180 := by field_simp

/-- C7 witness: coincident points give a zero-magnitude vector and the
angle is exactly 0 there. -/
theorem C7_witness : angleBetween pt0 pt0 ⟨1, 0, 0⟩ = 0 :=
  (C7_angle_range_and_degenerate pt0 pt0 ⟨1, 0, 0⟩).2 (Or.inl (by norm_num [hypot3, pt0]))

/-- C9: with mirror on the emitted label swaps Left and Right; with mirror
off it is unchanged; and the swap is an involution on every label. -/
theorem C9_mirror_swap :
    mirrorLabel true "Left" = "Right" ∧ mirrorLabel true "Right" = "Left" ∧
    (∀ s : String, mirrorLabel false s = s) ∧
    (∀ s : String, swapLabel (swapLabel s) = s) := by
  refine ⟨by decide, by decide, fun s => rfl, fun s => ?_⟩
  by_cases h1 : s = "Left"
  · subst h1; decide
  by_cases h2 : s = "Right"
  · subst h2; decide
  simp [swapLabel, h1, h2]

/-- C4: a frame with zero detected hands immediately clears both history
windows and resets the displayed count and handedness to the 0 and
placeholder sentinels, in part_000 and in part_001 alike. -/
theorem C4_reset :
    (∀ (cfg : Config) (st : SmoothState),
        processFrame cfg st [] = (⟨0, [], [], "—"⟩, [], "No hands detected")) ∧
    (∀ (multi : Bool) (st : V2State) (mhh : List String),
        onResultsV2 multi st [] mhh = (⟨[], []⟩, 0, "—", "No hands detected")) := by
  constructor
  · intro cfg st; simp [processFrame]
  · intro multi st mhh; simp [onResultsV2]

/-- A fold that at each step keeps one of its two arguments, never
decreasing the score, ends on a member of the candidate list whose score
dominates every candidate. -/
theorem foldl_pick_mem_max {α : Type} (cnt : α → ℕ) (step : α → α → α)
    (hstep : ∀ a b, (step a b = a ∨ step a b = b) ∧
      cnt a ≤ cnt (step a b) ∧ cnt b ≤ cnt (step a b)) :
    ∀ (ks : List α) (k : α),
      ks.foldl step k ∈ k :: ks ∧ ∀ j ∈ k :: ks, cnt j ≤ cnt (ks.foldl step k) := by
  intro ks
  induction ks with
  | nil =>
    intro k
    refine ⟨List.mem_cons_self _ _, ?_⟩
    intro j hj
    rcases List.mem_cons.mp hj with h | h
    · subst h; exact le_refl _
    · exact absurd h (List.not_mem_nil _)
  | cons b ks ih =>
    intro k
    have hfold : (b :: ks).foldl step k = ks.foldl step (step k b) := rfl
    obtain ⟨hmem, hmax⟩ := ih (step k b)
    constructor
    · rw [hfold]
      rcases List.mem_cons.mp hmem with he | ht
      · rw [he]
        rcases (hstep k b).1 with h | h <;> rw [h] <;> simp
      · simp [ht]
    · intro j hj
      rw [hfold]
      rcases List.mem_cons.mp hj with h | h
      · subst h
        exact le_trans (hstep j b).2.1 (hmax _ (List.mem_cons_self _ _))
      rcases List.mem_cons.mp h with h2 | h2
      · subst h2
        exact le_trans (hstep k j).2.2 (hmax _ (List.mem_cons_self _ _))
      · exact hmax _ (List.mem_cons_of_mem _ h2)

/-- Membership through the key-collecting fold of objKeys. -/
theorem foldl_keys_mem {α : Type} [DecidableEq α] :
    ∀ (l : List α) (ks : List α) (x : α),
      x ∈ l.foldl (fun ks v => if v ∈ ks then ks else ks ++ [v]) ks ↔ x ∈ ks ∨ x ∈ l := by
  intro l
  induction l with
  | nil => intro ks x; simp
  | cons v l ih =>
    intro ks x
    have h1 : (v :: l).foldl (fun ks v => if v ∈ ks then ks else ks ++ [v]) ks
        = l.foldl (fun ks v => if v ∈ ks then ks else ks ++ [v])
            (if v ∈ ks then ks else ks ++ [v]) := rfl
    rw [h1, ih]
    by_cases hv : v ∈ ks
    · rw [if_pos hv]
      simp only [List.mem_cons]
      constructor
      · rintro (h | h)
        · exact Or.inl h
        · exact Or.inr (Or.inr h)
      · rintro (h | h | h)
        · exact Or.inl h
        · exact Or.inl (h ▸ hv)
        · exact Or.inr h
    · rw [if_neg hv]
      simp only [List.mem_append, List.mem_singleton, List.mem_cons]
      tauto

/-- A value is an object key exactly when it occurs in the list. -/
theorem mem_objKeys {α : Type} [DecidableEq α] (l : List α) (x : α) :
    x ∈ objKeys l ↔ x ∈ l := by
  unfold objKeys
  rw [foldl_keys_mem]
  simp

/-- A value is a numeric object key exactly when it occurs in the list. -/
theorem mem_numKeys (l : List ℕ) (x : ℕ) : x ∈ numKeys l ↔ x ∈ l := by
  unfold numKeys
  rw [(List.perm_insertionSort (· ≤ ·) (objKeys l)).mem_iff, mem_objKeys]

/-- A nonempty list has a nonempty numeric key list. -/
theorem numKeys_ne_nil {l : List ℕ} (h : l ≠ []) : numKeys l ≠ [] := by
  cases l with
  | nil => exact absurd rfl h
  | cons a t =>
    intro he
    have ha : a ∈ numKeys (a :: t) := (mem_numKeys _ _).mpr (List.mem_cons_self _ _)
    rw [he] at ha
    exact absurd ha (List.not_mem_nil _)

/-- A nonempty list has a nonempty key list. -/
theorem objKeys_ne_nil {α : Type} [DecidableEq α] {l : List α} (h : l ≠ []) :
    objKeys l ≠ [] := by
  cases l with
  | nil => exact absurd rfl h
  | cons a t =>
    intro he
    have ha : a ∈ objKeys (a :: t) := (mem_objKeys _ _).mpr (List.mem_cons_self _ _)
    rw [he] at ha
    exact absurd ha (List.not_mem_nil _)

/-- The part_001 count mode returns a member of the window whose frequency
dominates every window value. -/
theorem modeV2_spec (l : List ℕ) (h : l ≠ []) :
    modeV2 l ∈ l ∧ ∀ v ∈ l, l.count v ≤ l.count (modeV2 l) := by
  obtain ⟨k, ks, e⟩ : ∃ k ks, numKeys l = k :: ks := by
    cases hn : numKeys l with
    | nil => exact absurd hn (numKeys_ne_nil h)
    | cons k ks => exact ⟨k, ks, rfl⟩
  have hm : modeV2 l = ks.foldl (fun a b => if l.count a > l.count b then a else b) k := by
    unfold modeV2
    rw [e]
  have hstep : ∀ a b, ((if l.count a > l.count b then a else b) = a ∨
      (if l.count a > l.count b then a else b) = b) ∧
      l.count a ≤ l.count (if l.count a > l.count b then a else b) ∧
      l.count b ≤ l.count (if l.count a > l.count b then a else b) := by
    intro a b
    split_ifs with hab
    · exact ⟨Or.inl rfl, le_refl _, le_of_lt hab⟩
    · exact ⟨Or.inr rfl, le_of_not_lt hab, le_refl _⟩
  obtain ⟨hmem, hmax⟩ := foldl_pick_mem_max (fun x => l.count x) _ hstep ks k
  rw [← e] at hmem hmax
  constructor
  · exact (mem_numKeys _ _).mp (hm ▸ hmem)
  · intro v hv
    rw [hm]
    exact hmax v ((mem_numKeys _ _).mpr hv)

/-- The script_bkp.js count mode returns a member of the window whose
frequency dominates every window value. -/
theorem modeBkp_spec (l : List ℕ) (h : l ≠ []) :
    modeBkp l ∈ l ∧ ∀ v ∈ l, l.count v ≤ l.count (modeBkp l) := by
  obtain ⟨k, ks, e⟩ : ∃ k ks, numKeys l = k :: ks := by
    cases hn : numKeys l with
    | nil => exact absurd hn (numKeys_ne_nil h)
    | cons k ks => exact ⟨k, ks, rfl⟩
  have hm : modeBkp l
      = ks.foldl (fun best kk => if l.count kk > l.count best then kk else best) k := by
    unfold modeBkp
    rw [e]
  have hstep : ∀ a b, ((if l.count b > l.count a then b else a) = a ∨
      (if l.count b > l.count a then b else a) = b) ∧
      l.count a ≤ l.count (if l.count b > l.count a then b else a) ∧
      l.count b ≤ l.count (if l.count b > l.count a then b else a) := by
    intro a b
    split_ifs with hab
    · exact ⟨Or.inr rfl, le_of_lt hab, le_refl _⟩
    · exact ⟨Or.inl rfl, le_refl _, le_of_not_lt hab⟩
  obtain ⟨hmem, hmax⟩ := foldl_pick_mem_max (fun x => l.count x) _ hstep ks k
  rw [← e] at hmem hmax
  constructor
  · exact (mem_numKeys _ _).mp (hm ▸ hmem)
  · intro v hv
    rw [hm]
    exact hmax v ((mem_numKeys _ _).mpr hv)

/-- The string mode shared by part_000 and part_001 returns a member of the
window whose frequency dominates every window value. -/
theorem modeStr_spec (l : List String) (h : l ≠ []) :
    modeStr l ∈ l ∧ ∀ v ∈ l, l.count v ≤ l.count (modeStr l) := by
  obtain ⟨k, ks, e⟩ : ∃ k ks, objKeys l = k :: ks := by
    cases hn : objKeys l with
    | nil => exact absurd hn (objKeys_ne_nil h)
    | cons k ks => exact ⟨k, ks, rfl⟩
  have hm : modeStr l = ks.foldl (fun a b => if l.count a > l.count b then a else b) k := by
    unfold modeStr
    rw [e]
  have hstep : ∀ a b, ((if l.count a > l.count b then a else b) = a ∨
      (if l.count a > l.count b then a else b) = b) ∧
      l.count a ≤ l.count (if l.count a > l.count b then a else b) ∧
      l.count b ≤ l.count (if l.count a > l.count b then a else b) := by
    intro a b
    split_ifs with hab
    · exact ⟨Or.inl rfl, le_refl _, le_of_lt hab⟩
    · exact ⟨Or.inr rfl, le_of_not_lt hab, le_refl _⟩
  obtain ⟨hmem, hmax⟩ := foldl_pick_mem_max (fun x => l.count x) _ hstep ks k
  rw [← e] at hmem hmax
  constructor
  · exact (mem_objKeys _ _).mp (hm ▸ hmem)
  · intro v hv
    rw [hm]
    exact hmax v ((mem_objKeys _ _).mpr hv)

/-- The script_bkp.js string mode returns a member of the window whose
frequency dominates every window value. -/
theorem modeBkpStr_spec (l : List String) (h : l ≠ []) :
    modeBkpStr l ∈ l ∧ ∀ v ∈ l, l.count v ≤ l.count (modeBkpStr l) := by
  obtain ⟨k, ks, e⟩ : ∃ k ks, objKeys l = k :: ks := by
    cases hn : objKeys l with
    | nil => exact absurd hn (objKeys_ne_nil h)
    | cons k ks => exact ⟨k, ks, rfl⟩
  have hm : modeBkpStr l
      = ks.foldl (fun best kk => if l.count kk > l.count best then kk else best) k := by
    unfold modeBkpStr
    rw [e]
  have hstep : ∀ a b, ((if l.count b > l.count a then b else a) = a ∨
      (if l.count b > l.count a then b else a) = b) ∧
      l.count a ≤ l.count (if l.count b > l.count a then b else a) ∧
      l.count b ≤ l.count (if l.count b > l.count a then b else a) := by
    intro a b
    split_ifs with hab
    · exact ⟨Or.inr rfl, le_of_lt hab, le_refl _⟩
    · exact ⟨Or.inl rfl, le_refl _, le_of_not_lt hab⟩
  obtain ⟨hmem, hmax⟩ := foldl_pick_mem_max (fun x => l.count x) _ hstep ks k
  rw [← e] at hmem hmax
  constructor
  · exact (mem_objKeys _ _).mp (hm ▸ hmem)
  · intro v hv
    rw [hm]
    exact hmax v ((mem_objKeys _ _).mpr hv)

/-- A capacity-8 window is never empty after a push. -/
theorem pushWindow8_ne_nil {α : Type} (w : List α) (x : α) : pushWindow 8 w x ≠ [] := by
  simp only [pushWindow]
  split_ifs with h
  · intro he
    have hlen := congrArg List.length he
    simp [List.length_drop] at hlen
    subst hlen
    simp at h
  · simp

/-- Folding a function over range n changes nothing after index 0, so with
a positive n the fold is the index-0 application. -/
theorem range_foldl_indexed {β : Type} (g : β → ℕ → β)
    (hg : ∀ s i, i ≠ 0 → g s i = s) :
    ∀ (n : ℕ), 0 < n → ∀ s : β, (List.range n).foldl g s = g s 0 := by
  intro n
  induction n with
  | zero => intro h; exact absurd h (lt_irrefl 0)
  | succ m ih =>
    intro _ s
    rw [List.range_succ, List.foldl_append, List.foldl_cons, List.foldl_nil]
    rcases Nat.eq_zero_or_pos m with h0 | h0
    · subst h0
      rfl
    · rw [hg _ _ (by omega), ih h0 s]

/-- With at least one detected hand, the part_001 state update is exactly
the push of hand 0 into both windows. -/
theorem onResultsV2_state (multi : Bool) (st : V2State)
    (mhl : List (List Pt)) (mhh : List String) (h : 0 < mhl.length) :
    (onResultsV2 multi st mhl mhh).1 =
      ⟨pushWindow 8 st.countHistory (analyzeHand (mhl.getD 0 [])).count,
       pushWindow 8 st.handedHistory (swapLabel (mhh.getD 0 "Unknown"))⟩ := by
  have hn : 0 < handsToShowV2 multi mhl.length := by
    unfold handsToShowV2
    split_ifs <;> omega
  have h1 : (onResultsV2 multi st mhl mhh).1
      = (List.range (handsToShowV2 multi mhl.length)).foldl
          (fun s i => v2ProcessHand s i (mhl.getD i []) (mhh.getD i "Unknown")) st := by
    unfold onResultsV2
    rw [if_pos h]
  rw [h1, range_foldl_indexed _
    (fun s i hi => by unfold v2ProcessHand; rw [if_neg hi]) _ hn st]
  rfl

/-- With at least one detected hand, part_001 displays the two modes of the
updated windows. -/
theorem onResultsV2_display (multi : Bool) (st : V2State)
    (mhl : List (List Pt)) (mhh : List String) (h : 0 < mhl.length) :
    (onResultsV2 multi st mhl mhh).2.1
        = modeV2 ((onResultsV2 multi st mhl mhh).1).countHistory ∧
    (onResultsV2 multi st mhl mhh).2.2.1
        = modeStr ((onResultsV2 multi st mhl mhh).1).handedHistory := by
  unfold onResultsV2
  rw [if_pos h]
  exact ⟨rfl, rfl⟩

/-- C5 counterexample: on the tied window [4, 5] the part_001 mode returns
5, the last-encountered key, but the first-encountered key of its
(ascending) key order is 4 — the claimed first-encountered tie-break fails. -/
theorem C5_counterexample :
    modeV2 [4, 5] = 5 ∧ numKeys [4, 5] = [4, 5] ∧
    List.count 4 [4, 5] = List.count 5 [4, 5] ∧ (5 : ℕ) ≠ 4 := by
  decide

/-- C5 amended: both mode implementations display a most frequent raw value
of the window (hence [5,5,4,5,4,4,5] displays 5 under both), but the
tie-break differs: script_bkp.js keeps the first-encountered key of the
ascending key order while part_001 keeps the last-encountered one, as the
tied window [4, 5] shows. -/
theorem C5_mode_most_frequent :
    (∀ l : List ℕ, l ≠ [] → modeV2 l ∈ l ∧ ∀ v ∈ l, l.count v ≤ l.count (modeV2 l)) ∧
    (∀ l : List ℕ, l ≠ [] → modeBkp l ∈ l ∧ ∀ v ∈ l, l.count v ≤ l.count (modeBkp l)) ∧
    modeV2 [5, 5, 4, 5, 4, 4, 5] = 5 ∧ modeBkp [5, 5, 4, 5, 4, 4, 5] = 5 ∧
    modeBkp [4, 5] = 4 ∧ modeV2 [4, 5] = 5 :=
  ⟨fun l h => modeV2_spec l h, fun l h => modeBkp_spec l h,
   by decide, by decide, by decide, by decide⟩

/-- C5 witness: the general part of the amended claim applied to a concrete
nonempty window. -/
theorem C5_witness :
    modeV2 [1, 1, 2] ∈ [1, 1, 2] ∧ modeBkp [1, 1, 2] ∈ [1, 1, 2] :=
  ⟨(C5_mode_most_frequent.1 [1, 1, 2] (by decide)).1,
   (C5_mode_most_frequent.2.1 [1, 1, 2] (by decide)).1⟩

/-- C10: every mode variant returns a value that occurs in its nonempty
input window; consequently the part_000 displayed handedness is a member of
its handedness window after every push, and the part_001 displayed count
and handedness after a frame with hands are members of the current windows. -/
theorem C10_mode_returns_member :
    (∀ l : List ℕ, l ≠ [] → modeV2 l ∈ l ∧ modeBkp l ∈ l) ∧
    (∀ l : List String, l ≠ [] → modeStr l ∈ l ∧ modeBkpStr l ∈ l) ∧
    (∀ (st : SmoothState) (c : ℕ) (lab : String),
        (pushHistory st c lab).smoothHand ∈ (pushHistory st c lab).handHistory) ∧
    (∀ (multi : Bool) (st : V2State) (mhl : List (List Pt)) (mhh : List String),
        0 < mhl.length →
        (onResultsV2 multi st mhl mhh).2.1
            ∈ ((onResultsV2 multi st mhl mhh).1).countHistory ∧
        (onResultsV2 multi st mhl mhh).2.2.1
            ∈ ((onResultsV2 multi st mhl mhh).1).handedHistory) := by
  refine ⟨fun l h => ⟨(modeV2_spec l h).1, (modeBkp_spec l h).1⟩,
          fun l h => ⟨(modeStr_spec l h).1, (modeBkpStr_spec l h).1⟩,
          fun st c lab => ?_, fun multi st mhl mhh h => ?_⟩
  · show modeStr (pushWindow 8 st.handHistory lab) ∈ pushWindow 8 st.handHistory lab
    exact (modeStr_spec _ (pushWindow8_ne_nil _ _)).1
  · have hd := onResultsV2_display multi st mhl mhh h
    rw [hd.1, hd.2, onResultsV2_state multi st mhl mhh h]
    exact ⟨(modeV2_spec _ (pushWindow8_ne_nil _ _)).1,
           (modeStr_spec _ (pushWindow8_ne_nil _ _)).1⟩

/-- C10 witness: the membership statements applied at concrete nonempty
inputs. -/
theorem C10_witness :
    modeV2 [2, 2, 1] ∈ [2, 2, 1] ∧ modeStr ["Left"] ∈ ["Left"] ∧
    (onResultsV2 false ⟨[], []⟩ [[]] []).2.1
        ∈ ((onResultsV2 false ⟨[], []⟩ [[]] []).1).countHistory :=
  ⟨(C10_mode_returns_member.1 [2, 2, 1] (by decide)).1,
   (C10_mode_returns_member.2.1 ["Left"] (by simp)).1,
   (C10_mode_returns_member.2.2.2 false ⟨[], []⟩ [[]] [] (by decide)).1⟩

/-- In-range lookups succeed and agree with getD. -/
theorem get?_eq_getD {α : Type} (l : List α) (i : ℕ) (d : α) (h : i < l.length) :
    l.get? i = some (l.getD i d) := by
  rw [List.getD_eq_get?]
  cases e : l.get? i with
  | none => exact absurd (List.get?_eq_none.mp e) (by omega)
  | some a => rfl

/-- The boolean-counting fold of analyzeLandmarks counts the true entries. -/
theorem foldl_count_true : ∀ (bs : List Bool) (n : ℕ),
    bs.foldl (fun s v => s + if v then 1 else 0) n = n + bs.count true := by
  intro bs
  induction bs with
  | nil => intro n; simp
  | cons b t ih =>
    intro n
    rw [List.foldl_cons, ih, List.count_cons]
    cases b <;> simp <;> omega

/-- With all three indices in range, jointExtended is the plain threshold
comparison. -/
theorem jointExtended_eq (l : List Pt) (i j k : ℕ) (thr : ℝ)
    (hi : i < l.length) (hj : j < l.length) (hk : k < l.length) :
    (jointExtended l i j k thr = true ↔
      thr < angleBetween (l.getD i pt0) (l.getD j pt0) (l.getD k pt0)) := by
  unfold jointExtended
  rw [get?_eq_getD l i pt0 hi, get?_eq_getD l j pt0 hj, get?_eq_getD l k pt0 hk]
  by_cases hc : thr < angleBetween (l.getD i pt0) (l.getD j pt0) (l.getD k pt0)
  · simp [hc]
  · simp [hc]

/-- C3: on every 21-landmark hand the classifier marks the thumb extended
iff the (2,3,4) angle exceeds 150 degrees, each other finger iff its triple
angle exceeds 160 degrees, and the count is the number of extended fingers,
at most 5. -/
theorem C3_classify (l : List Pt) (h : l.length = 21) : classifyClaim l := by
  refine ⟨?_, ?_, ?_, ?_, ?_, ?_, ?_⟩
  · show jointExtended l 2 3 4 150 = true ↔ _
    exact jointExtended_eq l 2 3 4 150 (by omega) (by omega) (by omega)
  · show jointExtended l 5 6 8 160 = true ↔ _
    exact jointExtended_eq l 5 6 8 160 (by omega) (by omega) (by omega)
  · show jointExtended l 9 10 12 160 = true ↔ _
    exact jointExtended_eq l 9 10 12 160 (by omega) (by omega) (by omega)
  · show jointExtended l 13 14 16 160 = true ↔ _
    exact jointExtended_eq l 13 14 16 160 (by omega) (by omega) (by omega)
  · show jointExtended l 17 18 20 160 = true ↔ _
    exact jointExtended_eq l 17 18 20 160 (by omega) (by omega) (by omega)
  · show (analyzeLandmarks l).extended.foldl (fun s v => s + if v then 1 else 0) 0
        = (analyzeLandmarks l).extended.count true
    rw [foldl_count_true, Nat.zero_add]
  · show (analyzeLandmarks l).extended.foldl (fun s v => s + if v then 1 else 0) 0 ≤ 5
    rw [foldl_count_true, Nat.zero_add]
    exact le_trans (List.count_le_length _ _) (le_of_eq rfl)

/-- C3 witness: the classification contract on a concrete 21-landmark hand. -/
theorem C3_witness :
    (List.replicate 21 pt0).length = 21 ∧ classifyClaim (List.replicate 21 pt0) :=
  ⟨by simp, C3_classify _ (by simp)⟩

/-- C6 counterexample: with the multi toggle on, part_001 processes all
detected hands — a 3-hand detection result is processed in full, not
clamped to the claimed first min(3, 2) = 2. -/
theorem C6_counterexample : handsToShowV2 true 3 = 3 ∧ (3 : ℕ) ≠ min 3 2 := by
  decide

/-- C6 amended: part_000 processes exactly the first min(d, multi ? 2 : 1)
hands, in detector order with no re-sorting; part_001 processes the first
min(d, 1) hands with multi off, but all d hands with multi on — equal to
min(d, 2) only for d ≤ 2 (the maximum its detector is configured for). -/
theorem C6_selection :
    (∀ (multi : Bool) (hands : List Hand),
        (shownHands multi hands).length = min (if multi then 2 else 1) hands.length ∧
        ∀ i : ℕ, i < (if multi then 2 else 1) →
          (shownHands multi hands).get? i = hands.get? i) ∧
    (∀ d : ℕ, handsToShowV2 false d = min d 1) ∧
    (∀ d : ℕ, d ≤ 2 → handsToShowV2 true d = min d 2) := by
  refine ⟨fun multi hands => ⟨?_, ?_⟩, fun d => ?_, fun d hd => ?_⟩
  · unfold shownHands
    rw [List.length_take]
  · intro i hi
    unfold shownHands
    exact List.get?_take hi
  · simp [handsToShowV2, Nat.min_comm]
  · simp [handsToShowV2]
    omega

/-- C6 witness: the hypothesis-bearing parts at concrete inputs — the order
preservation of the part_000 slice at index 1 of a 3-hand list, and the
d ≤ 2 case of the part_001 statement at d = 2. -/
theorem C6_witness :
    (shownHands true [⟨[], none⟩, ⟨[], some "Left"⟩, ⟨[], some "Right"⟩]).get? 1
        = ([⟨[], none⟩, ⟨[], some "Left"⟩, ⟨[], some "Right"⟩] : List Hand).get? 1 ∧
    handsToShowV2 true 2 = min 2 2 :=
  ⟨(C6_selection.1 true [⟨[], none⟩, ⟨[], some "Left"⟩, ⟨[], some "Right"⟩]).2 1 (by decide),
   C6_selection.2.2 2 (by decide)⟩

/-- Unfolding equation of handLoop on a cons cell. -/
theorem handLoop_cons (cfg : Config) (st : SmoothState) (i : ℕ) (h : Hand)
    (rest : List Hand) :
    handLoop cfg st i (h :: rest)
      = match normLm cfg h with
        | none => handLoop cfg st (i + 1) rest
        | some lm =>
          let analysis := analyzeLandmarks lm
          let label := mirrorLabel cfg.mirror (rawLabel h)
          let st1 := if i = 0 then pushHistory st analysis.count label else st
          let next := handLoop cfg st1 (i + 1) rest
          (next.1, (i, analysis, label) :: next.2) := rfl

/-- Loop iterations past index 0 never touch the smoother state. -/
theorem handLoop_state_ne_zero (cfg : Config) :
    ∀ (hs : List Hand) (st : SmoothState) (i : ℕ), i ≠ 0 →
      (handLoop cfg st i hs).1 = st := by
  intro hs
  induction hs with
  | nil => intro st i hi; rfl
  | cons h rest ih =>
    intro st i hi
    cases e : normLm cfg h with
    | none =>
      rw [handLoop_cons, e]
      exact ih st (i + 1) (by omega)
    | some lm =>
      rw [handLoop_cons, e]
      show (handLoop cfg (if i = 0 then pushHistory st (analyzeLandmarks lm).count
          (mirrorLabel cfg.mirror (rawLabel h)) else st) (i + 1) rest).1 = st
      rw [if_neg hi]
      exact ih st (i + 1) (by omega)

/-- The processed-hands list of the part_000 loop: exactly the hands that
pass the 21-landmark gate, each with its index, classification and label;
gated hands are dropped, the rest are still processed. -/
theorem handLoop_results (cfg : Config) :
    ∀ (hs : List Hand) (st : SmoothState) (i : ℕ),
      (handLoop cfg st i hs).2 = (List.enumFrom i hs).filterMap (fun p =>
        match normLm cfg p.2 with
        | none => none
        | some lm => some (p.1, analyzeLandmarks lm, mirrorLabel cfg.mirror (rawLabel p.2))) := by
  intro hs
  induction hs with
  | nil => intro st i; rfl
  | cons h rest ih =>
    intro st i
    have he : List.enumFrom i (h :: rest) = (i, h) :: List.enumFrom (i + 1) rest := rfl
    rw [he, List.filterMap_cons]
    cases e : normLm cfg h with
    | none =>
      rw [handLoop_cons, e]
      simp only [e]
      exact ih st (i + 1)
    | some lm =>
      rw [handLoop_cons, e]
      simp only [e]
      show (i, analyzeLandmarks lm, mirrorLabel cfg.mirror (rawLabel h))
            :: (handLoop cfg (if i = 0 then pushHistory st (analyzeLandmarks lm).count
              (mirrorLabel cfg.mirror (rawLabel h)) else st) (i + 1) rest).2
          = (i, analyzeLandmarks lm, mirrorLabel cfg.mirror (rawLabel h))
            :: (List.enumFrom (i + 1) rest).filterMap (fun p =>
              match normLm cfg p.2 with
              | none => none
              | some lm => some (p.1, analyzeLandmarks lm, mirrorLabel cfg.mirror (rawLabel p.2)))
      exact congrArg _ (ih _ (i + 1))

/-- A malformed hand 0 leaves the smoother untouched. -/
theorem handLoop_state_hand0_none (cfg : Config) (st : SmoothState) (h : Hand)
    (hs : List Hand) (e : normLm cfg h = none) :
    (handLoop cfg st 0 (h :: hs)).1 = st := by
  rw [handLoop_cons, e]
  exact handLoop_state_ne_zero cfg hs st 1 (by omega)

/-- A well-formed hand 0 is exactly what feeds the smoother. -/
theorem handLoop_state_hand0_some (cfg : Config) (st : SmoothState) (h : Hand)
    (hs : List Hand) (lm : List Pt) (e : normLm cfg h = some lm) :
    (handLoop cfg st 0 (h :: hs)).1 =
      pushHistory st (analyzeLandmarks lm).count (mirrorLabel cfg.mirror (rawLabel h)) := by
  rw [handLoop_cons, e]
  show (handLoop cfg (if 0 = 0 then pushHistory st (analyzeLandmarks lm).count
      (mirrorLabel cfg.mirror (rawLabel h)) else st) 1 hs).1 = _
  rw [if_pos rfl]
  exact handLoop_state_ne_zero cfg hs _ 1 (by omega)

/-- C8 amended for part_000: a selected hand without exactly 21 landmarks
is skipped — it appears in no processed result and, as hand 0, leaves the
smoother untouched — while the other selected hands are still processed;
a well-formed hand 0 is pushed into the smoother. -/
theorem C8_landmark_guard :
    (∀ (cfg : Config) (st : SmoothState) (i : ℕ) (hs : List Hand),
        (handLoop cfg st i hs).2 = (List.enumFrom i hs).filterMap (fun p =>
          match normLm cfg p.2 with
          | none => none
          | some lm => some (p.1, analyzeLandmarks lm, mirrorLabel cfg.mirror (rawLabel p.2)))) ∧
    (∀ (cfg : Config) (st : SmoothState) (h : Hand) (hs : List Hand),
        normLm cfg h = none → (handLoop cfg st 0 (h :: hs)).1 = st) ∧
    (∀ (cfg : Config) (st : SmoothState) (h : Hand) (hs : List Hand) (lm : List Pt),
        normLm cfg h = some lm →
        (handLoop cfg st 0 (h :: hs)).1 =
          pushHistory st (analyzeLandmarks lm).count (mirrorLabel cfg.mirror (rawLabel h))) :=
  ⟨fun cfg st i hs => handLoop_results cfg hs st i,
   fun cfg st h hs e => handLoop_state_hand0_none cfg st h hs e,
   fun cfg st h hs lm e => handLoop_state_hand0_some cfg st h hs lm e⟩

/-- C8 witness: a 0-landmark hand 0 leaves the part_000 smoother untouched,
and a 21-landmark hand 0 is pushed. -/
theorem C8_witness :
    (handLoop cfg0 initState 0 [⟨[], none⟩]).1 = initState ∧
    (handLoop cfg0 initState 0 [⟨List.replicate 21 pt0, none⟩]).1 =
      pushHistory initState
        (analyzeLandmarks (normalizePts cfg0 (List.replicate 21 pt0))).count
        (mirrorLabel cfg0.mirror (rawLabel ⟨List.replicate 21 pt0, none⟩)) :=
  ⟨C8_landmark_guard.2.1 cfg0 initState ⟨[], none⟩ [] (by simp [normLm]),
   C8_landmark_guard.2.2 cfg0 initState ⟨List.replicate 21 pt0, none⟩ []
     (normalizePts cfg0 (List.replicate 21 pt0)) (by simp [normLm])⟩

/-- C8 counterexample: part_001 has no landmark-count gate — a frame whose
only hand has 0 landmarks is still classified (count 0) and that count is
fed into the smoothing window. -/
theorem C8_counterexample :
    ((onResultsV2 true ⟨[], []⟩ [[]] []).1).countHistory = [0] ∧
    ([] : List Pt).length ≠ 21 := by
  constructor
  · rw [onResultsV2_state true ⟨[], []⟩ [[]] [] (by decide)]
    rfl
  · decide

end FingerTrack
